import Mathlib

/- Verification of the recipe parser (`src/unnamed/part_000` of
`fstrauf/nextjs-notion-starter-kit`).

Modelling conventions for the shallow embedding:
* JavaScript numbers are modelled as exact rationals (`ℚ`); `NaN` is modelled
  by `Option.none` of the producing operation.  Binary-float rounding,
  `Infinity` and `NaN` payloads are outside the model.
* Strings are handled at the level of their character lists; every string
  operation used by the source (`trim`, `split`, `toLowerCase`, regexes) is
  re-implemented here so that all definitions reduce in the kernel.
* Each regular expression of the source is hand-translated into a
  deterministic function; at each translation site a comment records the
  original regex and why the translation reproduces the JS backtracking
  behaviour. -/

set_option maxRecDepth 8192

namespace Recipe

/-- JS `\s` / `trim` whitespace class (ASCII fragment; the source only ever
meets ASCII whitespace). -/
def isWs (c : Char) : Bool := c.isWhitespace

/-- Character of a decimal digit `d < 10`. -/
def digitChar (d : Nat) : Char := Char.ofNat (48 + d)

/-- Numeric value of a digit character. -/
def digitVal (c : Char) : Nat := c.toNat - 48

/-- Value of a most-significant-first digit run. -/
def natVal (l : List Char) : Nat := l.foldl (fun a c => 10 * a + digitVal c) 0

/-- Least-significant-first decimal digits of `n` (empty for `0`). -/
def natDigitsRev : Nat → List Char
  | 0 => []
  | n + 1 => digitChar ((n + 1) % 10) :: natDigitsRev ((n + 1) / 10)
decreasing_by exact Nat.div_lt_self (Nat.succ_pos n) (by norm_num)

/-- Decimal rendering of a natural number (JS `Number.prototype.toString` on
a whole non-negative value). -/
def natToChars (n : Nat) : List Char := if n = 0 then [('0')] else (natDigitsRev n).reverse

/-- Decimal rendering of an integer (JS `toString` / template interpolation
on a whole value). -/
def intToString (k : Int) : String :=
  if k < 0 then ("-") ++ String.mk (natToChars k.natAbs) else String.mk (natToChars k.natAbs)

/-- JS `String.prototype.split` on a single separator character. -/
def splitChar (sep : Char) : List Char → List (List Char)
  | [] => [[]]
  | c :: cs =>
    match splitChar sep cs with
    | [] => if c = sep then [[], []] else [[c]]
    | h :: t => if c = sep then [] :: h :: t else (c :: h) :: t

theorem dropWhile_length_le (p : Char → Bool) :
    ∀ l : List Char, (l.dropWhile p).length ≤ l.length := by
  intro l
  induction l with
  | nil => simp
  | cons c cs ih =>
    rw [List.dropWhile_cons]
    split
    · exact Nat.le_succ_of_le ih
    · exact Nat.le_refl _

/-- JS `String.prototype.split(/\s+/)`: pieces between maximal whitespace
runs; a leading (resp. trailing) run contributes a leading (resp. trailing)
empty piece. -/
def splitWsAux (cur : List Char) : List Char → List (List Char)
  | [] => [cur]
  | c :: cs =>
    if isWs c then cur :: splitWsAux [] (cs.dropWhile isWs)
    else splitWsAux (cur ++ [c]) cs
termination_by l => l.length
decreasing_by
  all_goals simp_wf
  all_goals have := dropWhile_length_le isWs cs
  all_goals omega

/-- `split(/\s+/)` of the source's `parseQuantity`. -/
def splitWs (l : List Char) : List (List Char) := splitWsAux [] l

/-- JS `trim` (both ends). -/
def trimList (l : List Char) : List Char :=
  ((l.dropWhile isWs).reverse.dropWhile isWs).reverse

/-- JS `trim` on a string. -/
def jsTrim (s : String) : String := String.mk (trimList s.data)

/-- JS `parseFloat`, restricted to the exact-rational model: optional leading
whitespace and sign, a decimal mantissa (at least one digit), an optional
exponent.  `NaN` is `none`; the non-finite `Infinity` spelling is outside the
rational model and also maps to `none`. -/
def jsParseFloatL (s : List Char) : Option ℚ :=
  let l := s.dropWhile isWs
  let sgn : ℚ := if l.head? = some ('-') then -1 else 1
  let l1 := if l.head? = some ('-') ∨ l.head? = some ('+') then l.tail else l
  let ip := l1.takeWhile Char.isDigit
  let l2 := l1.drop ip.length
  let hasDot : Bool := l2.head? = some ('.')
  let fp := if hasDot then l2.tail.takeWhile Char.isDigit else []
  let l3 := if hasDot then l2.tail.drop fp.length else l2
  if ip = [] ∧ fp = [] then none
  else
    let mant : ℚ := (natVal ip : ℚ) + (natVal fp : ℚ) / ((10 : ℚ) ^ fp.length)
    let e : ℤ :=
      if l3.head? = some ('e') ∨ l3.head? = some ('E') then
        let r := l3.tail
        let esgn : ℤ := if r.head? = some ('-') then -1 else 1
        let r1 := if r.head? = some ('-') ∨ r.head? = some ('+') then r.tail else r
        let ed := r1.takeWhile Char.isDigit
        if ed = [] then 0 else esgn * (natVal ed : ℤ)
      else 0
    some (sgn * mant * (10 : ℚ) ^ e)

/-- JS `parseFloat` on a string. -/
def jsParseFloat (s : String) : Option ℚ := jsParseFloatL s.data

-- ========================================
-- UNIT CONVERSION SYSTEM
-- ========================================

inductive UnitType : Type where
  | volume : UnitType
  | weight : UnitType
  | count : UnitType
deriving DecidableEq

structure UnitConversion : Type where
  type : UnitType
  baseUnit : String
  conversions : List (String × ℚ)
deriving DecidableEq

/-- Lookup in a JS object literal used as a record (keys are unique, source
order preserved). -/
def assocLookup {α : Type} : List (String × α) → String → Option α
  | [], _ => none
  | (k, v) :: rest, key => if k = key then some v else assocLookup rest key

/-- JS truthiness of `record[key]` for a numeric record: present and not
zero (`NaN` does not occur in the static tables). -/
def truthyQ : Option ℚ → Bool
  | some m => m ≠ 0
  | none => false

/-- Volume conversions (to ml). -/
def mlGroup : UnitConversion :=
  { type := UnitType.volume
    baseUnit := "ml"
    conversions :=
      [("ml", 1), ("l", 1000), ("tsp", 4.92892), ("tbsp", 14.7868),
       ("cup", 236.588), ("fl oz", 29.5735)] }

/-- Weight conversions (to grams). -/
def gGroup : UnitConversion :=
  { type := UnitType.weight
    baseUnit := "g"
    conversions := [("g", 1), ("kg", 1000), ("oz", 28.3495), ("lb", 453.592)] }

/-- Count (no conversion needed). -/
def countGroup : UnitConversion :=
  { type := UnitType.count
    baseUnit := "count"
    conversions :=
      [("piece", 1), ("pieces", 1), ("clove", 1), ("cloves", 1),
       ("egg", 1), ("eggs", 1)] }

/-- `UNIT_CONVERSIONS`, in `Object.values` (insertion) order. -/
def UNIT_CONVERSIONS : List (String × UnitConversion) :=
  [("ml", mlGroup), ("g", gGroup), ("count", countGroup)]

/-- `UNIT_ALIASES`. -/
def UNIT_ALIASES : List (String × String) :=
  [("teaspoon", "tsp"), ("teaspoons", "tsp"), ("tablespoon", "tbsp"),
   ("tablespoons", "tbsp"), ("tbsps", "tbsp"), ("cup", "cup"), ("cups", "cup"),
   ("ounce", "oz"), ("ounces", "oz"), ("pound", "lb"), ("pounds", "lb"),
   ("milliliter", "ml"), ("milliliters", "ml"), ("liter", "l"), ("liters", "l"),
   ("gram", "g"), ("grams", "g"), ("kilogram", "kg"), ("kilograms", "kg"),
   ("fl oz", "fl oz"), ("fluid ounce", "fl oz"), ("fluid ounces", "fl oz")]

/-- JS `toLowerCase` at the character-list level (ASCII). -/
def lowerList (l : List Char) : List Char := l.map Char.toLower

/-- `normalizeUnit`: alias lookup first (alias values are non-empty strings,
hence truthy), then membership as a key of some conversions table with a
truthy (non-zero) multiplier. -/
def normalizeUnit (unitStr : String) : Option String :=
  let lower := String.mk (trimList (lowerList unitStr.data))
  match assocLookup UNIT_ALIASES lower with
  | some v => some v
  | none =>
    let rec find : List (String × UnitConversion) → Option String
      | [] => none
      | (_, conv) :: rest =>
        if truthyQ (assocLookup conv.conversions lower) then some lower else find rest
    find UNIT_CONVERSIONS

/-- `getUnitType`: first group whose table holds the unit; defaults to
`count`. -/
def getUnitType (u : String) : UnitType :=
  let rec go : List (String × UnitConversion) → UnitType
    | [] => UnitType.count
    | (_, conv) :: rest => if truthyQ (assocLookup conv.conversions u) then conv.type else go rest
  go UNIT_CONVERSIONS

/-- The group-selection loop of `convertQuantity`: iterate over
`Object.values(UNIT_CONVERSIONS)` assigning on every truthy hit, so the last
hit wins (the tables are key-disjoint, so this is the unique hit). -/
def findGroup (u : String) : Option UnitConversion :=
  UNIT_CONVERSIONS.foldl
    (fun acc p => if truthyQ (assocLookup p.2.conversions u) then some p.2 else acc) none

structure ConversionResult : Type where
  quantity : ℚ
  unit : String
  baseQuantity : ℚ
  baseUnit : String
deriving DecidableEq

/-- `convertQuantity`. -/
def convertQuantity (quantity : ℚ) (fromUnit toUnit : String) : Option ConversionResult :=
  match normalizeUnit fromUnit, normalizeUnit toUnit with
  | some nf, some nt =>
    match findGroup nf, findGroup nt with
    | some fromGroup, some toGroup =>
      if fromGroup.baseUnit = toGroup.baseUnit then
        let toBaseMultiplier := (assocLookup fromGroup.conversions nf).getD 1
        let fromBaseMultiplier := (assocLookup toGroup.conversions nt).getD 1
        let baseQuantity := quantity * toBaseMultiplier
        some { quantity := baseQuantity / fromBaseMultiplier
               unit := nt
               baseQuantity := baseQuantity
               baseUnit := fromGroup.baseUnit }
      else none
    | _, _ => none
  | _, _ => none

-- ========================================
-- QUANTITY PARSER
-- ========================================

/-- The body of `parseQuantity`'s loop for one whitespace-separated part.
A part containing `/` is split at `/`; the pieces at indices `0` and `1`
(absent or empty pieces are falsy, hence `NaN`) are `parseFloat`ed and the
part is worth numerator over denominator, rejecting a zero denominator.
Any other part is `parseFloat`ed directly. -/
def partStep (part : List Char) : Option ℚ :=
  if ('/') ∈ part then
    let fp := splitChar ('/') part
    let ns := fp.getD 0 []
    let ds := fp.getD 1 []
    let num := if ns = [] then none else jsParseFloatL ns
    let den := if ds = [] then none else jsParseFloatL ds
    match num, den with
    | some nv, some dv => if dv = 0 then none else some (nv / dv)
    | _, _ => none
  else jsParseFloatL part

/-- The accumulation loop of `parseQuantity` with early `null` return. -/
def parseQuantityAux : List (List Char) → ℚ → Option ℚ
  | [], total => some total
  | p :: rest, total =>
    match partStep p with
    | none => none
    | some v => parseQuantityAux rest (total + v)

/-- `parseQuantity`. -/
def parseQuantity (quantityStr : String) : Option ℚ :=
  match parseQuantityAux (splitWs quantityStr.data) 0 with
  | none => none
  | some total => if 0 < total then some total else none

/-- Specification-side view of `parseQuantity`: the value of every
whitespace-separated part, or `none` as soon as one part is invalid. -/
def partsValues : List (List Char) → Option (List ℚ)
  | [] => some []
  | p :: rest =>
    match partStep p, partsValues rest with
    | some v, some vs => some (v :: vs)
    | _, _ => none

-- ========================================
-- QUANTITY FORMATTER
-- ========================================

/-- JS `Math.round`: nearest integer, halves toward positive infinity. -/
def jsRound (x : ℚ) : ℤ := ⌊x + 1 / 2⌋

structure FractionMatch : Type where
  whole : ℤ
  numerator : ℤ
  denominator : ℤ
  error : ℚ
deriving DecidableEq

/-- One iteration of `closestFraction`'s denominator loop: strict-less
comparison, so earlier (smaller) denominators win ties. -/
def cfStep (remainder : ℚ) (best : ℤ × ℤ × ℚ) (d : ℕ) : ℤ × ℤ × ℚ :=
  let numerator := jsRound (remainder * d)
  let error := |(numerator : ℚ) / (d : ℚ) - remainder|
  if error < best.2.2 then (numerator, (d : ℤ), error) else best

/-- `closestFraction`.  The source's return type admits `null` but every
path returns an object, so the embedding is total. -/
def closestFraction (decimal : ℚ) : FractionMatch :=
  let whole := ⌊decimal⌋
  let remainder := decimal - (whole : ℚ)
  let best := (List.range' 1 16).foldl (cfStep remainder) (0, 1, 1)
  if best.1 = best.2.1 then
    { whole := whole + 1, numerator := 1, denominator := 1, error := 0 }
  else
    { whole := whole, numerator := best.1, denominator := best.2.1, error := best.2.2 }

/-- JS `toFixed(2)` in the exact-rational model: round to an integer number
of hundredths (ties toward positive infinity, per the `toFixed`
specification's "pick the larger n"), then print with two decimals. -/
def jsToFixed2 (q : ℚ) : String :=
  let n := jsRound (q * 100)
  let sign := if n < 0 then ("-") else ""
  let a := n.natAbs
  let frac := a % 100
  let fracStr :=
    if frac < 10 then ("0") ++ String.mk (natToChars frac) else String.mk (natToChars frac)
  sign ++ String.mk (natToChars (a / 100)) ++ (".") ++ fracStr

/-- `toString` of a JS number that is known to be integer-valued (the only
whole-number branch the source takes it on). -/
def jsNumToString (q : ℚ) : String := intToString q.num

/-- `formatQuantity`.  The JS whole-number test `quantity % 1 === 0` holds
exactly for integer-valued inputs, i.e. rationals with denominator 1. -/
def formatQuantity (quantity : ℚ) : String :=
  if quantity.den = 1 then jsNumToString quantity
  else
    let fractionMatch := closestFraction quantity
    if fractionMatch.error < 1 / 100 then
      if 0 < fractionMatch.whole then
        intToString fractionMatch.whole ++ (" ") ++ intToString fractionMatch.numerator
          ++ ("/") ++ intToString fractionMatch.denominator
      else intToString fractionMatch.numerator ++ ("/") ++ intToString fractionMatch.denominator
    else jsToFixed2 quantity

-- ========================================
-- INGREDIENT PARSER
-- ========================================

structure ParsedIngredient : Type where
  original : String
  quantity : ℚ
  unit : String
  unitType : UnitType
  ingredient : String
  notes : Option String
deriving DecidableEq

/-- `trimmed.replace(/^[-•]\s*/, '')`: strip one leading bullet or dash and
the whitespace run after it.  The pattern is anchored and the replacement is
independent of the rest, so one deterministic pass is faithful. -/
def stripBullet : List Char → List Char
  | [] => []
  | c :: rest => if c = ('-') ∨ c = ('•') then rest.dropWhile isWs else c :: rest

/-- Matcher for the notes pattern `/\(([^)]+)\)$/`: leftmost position whose
suffix is `(`, one or more non-`)` characters, then `)` at the very end.
Inside one position the match is deterministic: `[^)]+` is greedy and
shrinking it would place a non-`)` character where `\)` must match.
Returns (match index, group 1). -/
def notesScan : List Char → Option (ℕ × List Char)
  | [] => none
  | c :: rest =>
    if c = ('(') then
      let r := rest.takeWhile (fun x => x ≠ (')'))
      if r ≠ [] ∧ rest.drop r.length = [(')')] then some (0, r)
      else (notesScan rest).map (fun p => (p.1 + 1, p.2))
    else (notesScan rest).map (fun p => (p.1 + 1, p.2))

/-- Character class `[a-z\s]` under the `/i` flag. -/
def isUnitChar (c : Char) : Bool :=
  (('a') ≤ c ∧ c ≤ ('z')) ∨ (('A') ≤ c ∧ c ≤ ('Z')) ∨ isWs c

/-- The tail `(?:\s+(.+))?$` of the ingredient regex, tried at the point the
lazy unit group has reached.  With the group present, `\s+` greedily takes
the maximal whitespace run; `(.+)` (`.` matches spaces but not newlines, and
the inputs are single lines) needs one remaining character, so when the run
reaches the end the engine backtracks `\s+` by one.  With the group absent,
`$` must be at hand.  Result: `none` = no match here, `some g3` = match with
capture 3 `g3`. -/
def tryTail (cs : List Char) : Option (Option (List Char)) :=
  if cs = [] then some none
  else
    let w := cs.takeWhile isWs
    if w = [] then none
    else
      let r := cs.drop w.length
      if r ≠ [] then some (some r)
      else if 2 ≤ w.length then some (some (cs.drop (w.length - 1)))
      else none

/-- The lazy group `([a-z\s]+?)` of the ingredient regex: absorb one
character (at least one is mandatory), try the tail, and grow only on
failure — lazy repetition tries the shortest extent first. -/
def unitLoop (acc : List Char) : List Char → Option (List Char × Option (List Char))
  | [] => none
  | c :: rest =>
    if isUnitChar c then
      match tryTail rest with
      | some g3 => some (acc ++ [c], g3)
      | none => unitLoop (acc ++ [c]) rest
    else none

/-- The separator `\s+` before the unit group, greedy with backtracking:
try the maximal whitespace run first, then shorter runs (the unit class
`[a-z\s]` also accepts whitespace, so a shorter separator can succeed). -/
def sepUnitGo (cs : List Char) : ℕ → Option (List Char × Option (List Char))
  | 0 => none
  | m + 1 =>
    match unitLoop [] (cs.drop (m + 1)) with
    | some r => some r
    | none => sepUnitGo cs m

def sepUnit (cs : List Char) : Option (List Char × Option (List Char)) :=
  sepUnitGo cs (cs.takeWhile isWs).length

/-- The optional mixed-number tail `(?:\s+\d+\/\d+)?` of quantity
alternative 1.  Each piece is determined: shrinking the greedy `\s+` leaves
whitespace where `\d+` must match, shrinking either `\d+` leaves a digit
where `\/` (resp. the following separator `\s+`) must match. -/
def mixedTail (cs : List Char) : Option (List Char × List Char) :=
  let w := cs.takeWhile isWs
  if w = [] then none
  else
    let r1 := cs.drop w.length
    let d1 := r1.takeWhile Char.isDigit
    if d1 = [] then none
    else
      match r1.drop d1.length with
      | '/' :: r2 =>
        let d2 := r2.takeWhile Char.isDigit
        if d2 = [] then none
        else some (w ++ d1 ++ ('/') :: d2, r2.drop d2.length)
      | _ => none

/-- Candidates for quantity alternative 1, `[\d.]+(?:\s+\d+\/\d+)?`, in JS
backtracking order: the greedy run of `[\d.]` shrinks from its maximum to
length 1, and for each length the optional mixed tail is tried present
first, then absent. -/
def alt1Go (cs : List Char) : ℕ → List (List Char × List Char)
  | 0 => []
  | k + 1 =>
    let pre := cs.take (k + 1)
    let rest := cs.drop (k + 1)
    (match mixedTail rest with
     | some (mt, r2) => [(pre ++ mt, r2)]
     | none => []) ++ [(pre, rest)] ++ alt1Go cs k

/-- Quantity alternative 2, `\d+\/\d+` (determined, as in `mixedTail`). -/
def alt2Candidate (cs : List Char) : Option (List Char × List Char) :=
  let d1 := cs.takeWhile Char.isDigit
  if d1 = [] then none
  else
    match cs.drop d1.length with
    | '/' :: r2 =>
      let d2 := r2.takeWhile Char.isDigit
      if d2 = [] then none
      else some (d1 ++ ('/') :: d2, r2.drop d2.length)
    | _ => none

/-- All candidates for capture 1 of
`/^([\d.]+(?:\s+\d+\/\d+)?|\d+\/\d+)\s+([a-z\s]+?)(?:\s+(.+))?$/i`,
in JS alternation/backtracking order. -/
def group1Candidates (cs : List Char) : List (List Char × List Char) :=
  alt1Go cs (cs.takeWhile (fun c => Char.isDigit c ∨ c = ('.'))).length
    ++ (alt2Candidate cs).toList

/-- Try each candidate for capture 1 in order against the rest of the
pattern; the first overall success wins, as in a backtracking engine. -/
def tryCands : List (List Char × List Char) → Option (List Char × List Char × Option (List Char))
  | [] => none
  | (g1, rest) :: more =>
    match sepUnit rest with
    | some (u, g3) => some (g1, u, g3)
    | none => tryCands more

/-- The anchored ingredient regex
`/^([\d.]+(?:\s+\d+\/\d+)?|\d+\/\d+)\s+([a-z\s]+?)(?:\s+(.+))?$/i` as a
whole: captures 1 (quantity token), 2 (unit words) and optional 3
(ingredient text). -/
def matchIngredient (cs : List Char) : Option (List Char × List Char × Option (List Char)) :=
  tryCands (group1Candidates cs)

/-- `parseIngredientLine`. -/
def parseIngredientLine (line : String) : Option ParsedIngredient :=
  let trimmed := jsTrim line
  let cleaned := trimList (stripBullet trimmed.data)
  let notesSplit : List Char × Option String :=
    match notesScan cleaned with
    | some (i, r) => (trimList (cleaned.take i), some (String.mk r))
    | none => (cleaned, none)
  match matchIngredient notesSplit.1 with
  | none => none
  | some (g1, g2, g3) =>
    let unitStr := String.mk (trimList g2)
    let ingredientStr : String :=
      match g3 with
      | some t => if trimList t = [] then unitStr else String.mk (trimList t)
      | none => unitStr
    match parseQuantity (String.mk g1) with
    | none => none
    | some quantity =>
      match normalizeUnit unitStr with
      | none => none
      | some normalizedUnit =>
        some { original := trimmed
               quantity := quantity
               unit := normalizedUnit
               unitType := getUnitType normalizedUnit
               ingredient := ingredientStr
               notes := notesSplit.2 }

-- ========================================
-- RECIPE SCALING
-- ========================================

structure ScaledIngredient : Type where
  toIngredient : ParsedIngredient
  scaledQuantity : ℚ
  scaledUnit : String
  displayQuantity : String
deriving DecidableEq

/-- `scaleRecipe`. -/
def scaleRecipe (ingredients : List ParsedIngredient) (originalServings desiredServings : ℚ) :
    List ScaledIngredient :=
  let scaleFactor := desiredServings / originalServings
  ingredients.map fun ingredient =>
    { toIngredient := ingredient
      scaledQuantity := ingredient.quantity * scaleFactor
      scaledUnit := ingredient.unit
      displayQuantity := formatQuantity (ingredient.quantity * scaleFactor) }

-- ========================================
-- INSTRUCTION PARSER
-- ========================================

structure Temperature : Type where
  value : ℕ
  unit : Char
deriving DecidableEq

structure TimeSpec : Type where
  value : ℕ
  unit : String
deriving DecidableEq

structure ParsedInstruction : Type where
  stepNumber : ℕ
  text : String
  temperature : Option Temperature
  time : Option TimeSpec
deriving DecidableEq

/-- The step pattern `/^(\d+)\.\s+(.+)$/` on a (newline-free) trimmed line.
`\d+` is greedy and shrinking it would put a digit where `\.` must match;
`\s+` is greedy and when `(.+)` finds nothing left the engine gives one
whitespace character back (`.` matches it).  Returns (capture 1, capture 2). -/
def stepMatch (l : List Char) : Option (List Char × List Char) :=
  let d := l.takeWhile Char.isDigit
  let l2 := l.drop d.length
  if d = [] then none
  else if l2.head? = some ('.') then
    let r2 := l2.tail
    let w := r2.takeWhile isWs
    if w = [] then none
    else
      let rest := r2.drop w.length
      if rest ≠ [] then some (d, rest)
      else if 2 ≤ w.length then some (d, r2.drop (w.length - 1))
      else none
  else none

/-- One attempt of the temperature pattern `/(\d+)°?([FC])/i` at a fixed
position: greedy digits (shrinking leaves a digit where `°`/`[FC]` must
match, so no backtracking can help), optional degree sign, then the letter. -/
def tryTempAt (l : List Char) : Option Temperature :=
  let d := l.takeWhile Char.isDigit
  if d = [] then none
  else
    let r := l.drop d.length
    let r2 := match r with
      | '°' :: rr => rr
      | _ => r
    match r2 with
    | c :: _ =>
      if c = ('F') ∨ c = ('f') ∨ c = ('C') ∨ c = ('c') then
        some { value := natVal d, unit := c.toUpper }
      else none
    | [] => none

/-- Left-to-right scan of the unanchored temperature pattern: the first
position where an attempt succeeds wins. -/
def tempSearch : List Char → Option Temperature
  | [] => none
  | c :: rest =>
    match tryTempAt (c :: rest) with
    | some t => some t
    | none => tempSearch rest

/-- The alternation `(minute|min|second|sec|hour|hr)` of the time pattern,
in source order (so `minute` wins over `min` when both fit), compared
case-insensitively; returns the canonical lower-case word. -/
def matchUnitWord (l : List Char) : Option (List Char) :=
  let words : List (List Char) :=
    [("minute").data, ("min").data, ("second").data, ("sec").data, ("hour").data, ("hr").data]
  words.find? fun w => lowerList (l.take w.length) = w

/-- One attempt of the time pattern
`/(\d+(?:\s*-\s*\d+)?)\s*(minute|min|second|sec|hour|hr)s?/i` at a fixed
position.  The optional dash range is tried present first; if the unit word
then fails the engine backtracks to the range-absent reading.  Each inner
piece is determined (shrinking `\s*`/`\d+` mismatches the next literal).
`parseInt` on capture 1 reads only its leading digit run. -/
def tryTimeAt (l : List Char) : Option TimeSpec :=
  let d := l.takeWhile Char.isDigit
  if d = [] then none
  else
    let after := l.drop d.length
    let afterRange : Option (List Char) :=
      match after.drop (after.takeWhile isWs).length with
      | '-' :: r2 =>
        let d2 := (r2.drop (r2.takeWhile isWs).length).takeWhile Char.isDigit
        if d2 = [] then none
        else some ((r2.drop (r2.takeWhile isWs).length).drop d2.length)
      | _ => none
    let unitAt : List Char → Option TimeSpec := fun cs =>
      match matchUnitWord (cs.drop (cs.takeWhile isWs).length) with
      | some w => some { value := natVal d, unit := String.mk w }
      | none => none
    match afterRange with
    | some r =>
      match unitAt r with
      | some t => some t
      | none => unitAt after
    | none => unitAt after

/-- Left-to-right scan of the unanchored time pattern. -/
def timeSearch : List Char → Option TimeSpec
  | [] => none
  | c :: rest =>
    match tryTimeAt (c :: rest) with
    | some t => some t
    | none => timeSearch rest

/-- The per-line body of `parseInstructions`: skip blank and `#`-heading
lines, recognise the step pattern, and extract temperature and time from
the instruction text.  (The source's running `stepNumber` variable is
overwritten on every emitted record, so each record carries its own parsed
number.) -/
def instructionOfLine (l : List Char) : Option ParsedInstruction :=
  let trimmed := trimList l
  if trimmed = [] then none
  else if trimmed.head? = some ('#') then none
  else
    match stepMatch trimmed with
    | none => none
    | some (ds, rest) =>
      some { stepNumber := natVal ds
             text := String.mk rest
             temperature := tempSearch rest
             time := timeSearch rest }

/-- `parseInstructions`. -/
def parseInstructions (text : String) : List ParsedInstruction :=
  (splitChar ('\n') text.data).filterMap instructionOfLine

-- ========================================
-- THEOREMS
-- ========================================

/-- Claim C1, counterexample: the count category's base unit name `count` is
not itself a key of any conversions table, so `normalizeUnit` rejects it and
converting the canonical count unit `egg` (multiplier 1) to its category's
base unit fails instead of succeeding with quantity `1 * 1`. -/
theorem c1_counterexample : convertQuantity 1 ("egg") ("count") = none := by
  with_unfolding_all decide

/-- Claim C1 (amended): for every canonical unit `u` with multiplier `m` in
the conversions table of a category other than count (volume with base `ml`,
weight with base `g`), and every quantity `x`, `convertQuantity x u base`
succeeds and the resulting quantity is exactly `x * m` (exact rationals, so
well within the claimed `1e-6` tolerance).  For the count category the
conversion to the base name `count` fails, since `count` is not a listed
unit. -/
theorem c1_convert_to_base (p : String × UnitConversion) (hp : p ∈ UNIT_CONVERSIONS)
    (hnc : p.2.type ≠ UnitType.count) (e : String × ℚ) (he : e ∈ p.2.conversions) (x : ℚ) :
    ∃ r, convertQuantity x e.1 p.2.baseUnit = some r ∧ r.quantity = x * e.2 := by
  simp only [UNIT_CONVERSIONS, List.mem_cons, List.not_mem_nil, or_false] at hp
  rcases hp with rfl | rfl | rfl
  · simp only [mlGroup, List.mem_cons, List.not_mem_nil, or_false] at he
    rcases he with rfl | rfl | rfl | rfl | rfl | rfl <;>
      exact ⟨_, by with_unfolding_all rfl, div_one _⟩
  · simp only [gGroup, List.mem_cons, List.not_mem_nil, or_false] at he
    rcases he with rfl | rfl | rfl | rfl <;>
      exact ⟨_, by with_unfolding_all rfl, div_one _⟩
  · simp [countGroup] at hnc

/-- Claim C1, witness: converting 2 cups to the volume base `ml` succeeds
with quantity `2 * 236.588`. -/
theorem c1_witness :
    ∃ r, convertQuantity 2 ("cup") ("ml") = some r ∧ r.quantity = 2 * (236.588 : ℚ) :=
  c1_convert_to_base (("ml"), mlGroup) (by simp [UNIT_CONVERSIONS]) (by decide)
    (("cup"), (236.588 : ℚ)) (by simp [mlGroup]) 2

/-- Claim C2, counterexample: the registry invariant "every multiplier is
positive and the base unit is a key of its own conversions map with
multiplier 1" fails, because the count group's base unit `count` is not a
key of its conversions map at all. -/
theorem c2_counterexample :
    ¬ (∀ p ∈ UNIT_CONVERSIONS, (∀ e ∈ p.2.conversions, 0 < e.2) ∧
        assocLookup p.2.conversions p.2.baseUnit = some 1) := by
  with_unfolding_all decide

/-- Claim C2 (amended): every multiplier in every conversions table is
strictly positive; for the volume and weight categories the base unit is a
key of its own table with multiplier exactly 1; the count category's base
unit `count` is absent from its own table. -/
theorem c2_registry_invariants :
    (∀ p ∈ UNIT_CONVERSIONS, ∀ e ∈ p.2.conversions, 0 < e.2) ∧
    (∀ p ∈ UNIT_CONVERSIONS, p.2.type ≠ UnitType.count →
      assocLookup p.2.conversions p.2.baseUnit = some 1) ∧
    assocLookup countGroup.conversions countGroup.baseUnit = none := by
  with_unfolding_all decide

/-- Claim C2, witness: the volume group's base unit `ml` maps to 1. -/
theorem c2_witness : assocLookup mlGroup.conversions mlGroup.baseUnit = some 1 :=
  c2_registry_invariants.2.1 (("ml"), mlGroup) (by simp [UNIT_CONVERSIONS]) (by decide)

/-- Claim C3: for recognized units whose owning unit definitions have
different base units (different categories), `convertQuantity` returns
absence for every quantity. -/
theorem c3_cross_category_fails (x : ℚ) (u v nu nv : String) (gu gv : UnitConversion)
    (hu : normalizeUnit u = some nu) (hv : normalizeUnit v = some nv)
    (hgu : findGroup nu = some gu) (hgv : findGroup nv = some gv)
    (hne : gu.baseUnit ≠ gv.baseUnit) : convertQuantity x u v = none := by
  simp only [convertQuantity, hu, hv, hgu, hgv]
  rw [if_neg hne]

/-- Claim C3, witness: `cup` (volume) to `g` (weight) fails. -/
theorem c3_witness : convertQuantity 1 ("cup") ("g") = none :=
  c3_cross_category_fails 1 ("cup") ("g") ("cup") ("g") mlGroup gGroup
    (by with_unfolding_all rfl) (by with_unfolding_all rfl)
    (by with_unfolding_all rfl) (by with_unfolding_all rfl) (by decide)

/-- Claim C5, divergence witness: when the denominator search rounds the
remainder up to a whole unit, `closestFraction` reports
`{whole := whole + 1, numerator := 1, denominator := 1}`, and
`formatQuantity` then renders the *mixed string* `"1 1/1"` for `0.999`
instead of the whole-number string `"1"` the specification describes. -/
theorem c5_roundup_renders_mixed : formatQuantity ((999 : ℚ) / 1000) = "1 1/1" := by
  with_unfolding_all decide

/-- Claim C6: the two specification examples of `parseIngredientLine`. -/
theorem c6_ingredient_examples :
    parseIngredientLine ("2 1/4 cups all-purpose flour") =
      some { original := "2 1/4 cups all-purpose flour", quantity := 9 / 4, unit := "cup",
             unitType := UnitType.volume, ingredient := "all-purpose flour", notes := none } ∧
    parseIngredientLine ("2 eggs") =
      some { original := "2 eggs", quantity := 2, unit := "eggs",
             unitType := UnitType.count, ingredient := "eggs", notes := none } := by
  constructor <;> with_unfolding_all decide

/-- Claim C9, counterexample: `0` is a whole number, `formatQuantity 0`
renders `"0"`, but `parseQuantity` rejects non-positive totals, so the
round trip fails at `0`. -/
theorem c9_counterexample : ¬ (parseQuantity (formatQuantity ((0 : ℚ))) = some ((0 : ℚ))) := by
  with_unfolding_all decide

theorem parseQuantityAux_eq_partsValues (l : List (List Char)) :
    ∀ t : ℚ, parseQuantityAux l t = (partsValues l).map (fun vs => t + vs.sum) := by
  induction l with
  | nil => intro t; simp [parseQuantityAux, partsValues]
  | cons p rest ih =>
    intro t
    cases h : partStep p with
    | none => simp [parseQuantityAux, partsValues, h]
    | some v =>
      cases h2 : partsValues rest with
      | none => simp [parseQuantityAux, partsValues, h, h2, ih]
      | some vs => simp [parseQuantityAux, partsValues, h, h2, ih, add_assoc]

/-- Claim C4: `parseQuantity` returns absence exactly when some
whitespace-separated part is invalid (non-numeric, or a slash part whose
numerator or denominator token is missing, non-numeric or — for the
denominator — zero) or when the summed total is not strictly positive;
otherwise it returns the sum of the part values, a `a/b` part contributing
`a / b` (see `partStep`). -/
theorem c4_parseQuantity_spec (s : String) :
    parseQuantity s =
      (partsValues (splitWs s.data)).bind
        (fun vs => if 0 < vs.sum then some vs.sum else none) := by
  rw [parseQuantity, parseQuantityAux_eq_partsValues]
  cases partsValues (splitWs s.data) with
  | none => rfl
  | some vs => simp

/-- Claim C8: scaling maps each ingredient in order to a record that keeps
the whole input ingredient, scales the quantity by
`desiredServings / originalServings`, keeps the unit, and formats the scaled
quantity; for 24 → 12 servings the factor is exactly 1/2. -/
theorem c8_scaleRecipe (ings : List ParsedIngredient) (o d : ℚ) (ho : 0 < o) :
    (scaleRecipe ings o d).length = ings.length ∧
    (∀ i : ℕ, (scaleRecipe ings o d)[i]? = ings[i]?.map (fun ing =>
      { toIngredient := ing
        scaledQuantity := ing.quantity * (d / o)
        scaledUnit := ing.unit
        displayQuantity := formatQuantity (ing.quantity * (d / o)) })) ∧
    (∀ i : ℕ, ((scaleRecipe ings 24 12)[i]?).map ScaledIngredient.scaledQuantity =
      ings[i]?.map (fun ing => ing.quantity * (1 / 2))) := by
  refine ⟨by simp [scaleRecipe], fun i => ?_, fun i => ?_⟩
  · simp [scaleRecipe, List.getElem?_map]
  · cases h : ings[i]? with
    | none => simp [scaleRecipe, List.getElem?_map, h]
    | some ing =>
      simp only [scaleRecipe, List.getElem?_map, h, Option.map_some]
      norm_num

theorem splitChar_of_not_mem {sep : Char} {l : List Char} (h : sep ∉ l) :
    splitChar sep l = [l] := by
  induction l with
  | nil => rfl
  | cons c cs ih =>
    have hc : ¬ c = sep := by rintro rfl; exact h (List.mem_cons_self _ _)
    have hcs : sep ∉ cs := fun hm => h (List.mem_cons_of_mem _ hm)
    simp [splitChar, ih hcs, hc]

theorem drop_length_takeWhile (p : Char → Bool) (l : List Char) :
    l.drop (l.takeWhile p).length = l.dropWhile p := by
  have h := List.takeWhile_append_dropWhile (p := p) (l := l)
  calc l.drop (l.takeWhile p).length
      = (l.takeWhile p ++ l.dropWhile p).drop (l.takeWhile p).length := by rw [h]
    _ = l.dropWhile p := List.drop_left _ _

theorem append_ne_nil_left {l₁ l₂ : List Char} (h : l₁ ≠ []) : l₁ ++ l₂ ≠ [] := by
  cases l₁ with
  | nil => exact absurd rfl h
  | cons a t => simp

/-- The step pattern accepts a character list exactly when it decomposes as
a non-empty digit run, a dot, a non-empty whitespace run, and a non-empty
remainder. -/
theorem stepMatch_isSome_iff (l : List Char) :
    (stepMatch l).isSome = true ↔
      ∃ d w r : List Char, l = d ++ ('.') :: (w ++ r) ∧ d ≠ [] ∧
        (∀ c ∈ d, c.isDigit = true) ∧ w ≠ [] ∧ (∀ c ∈ w, isWs c = true) ∧ r ≠ [] := by
  constructor
  · intro h
    simp only [stepMatch] at h
    rw [drop_length_takeWhile] at h
    by_cases hd : l.takeWhile Char.isDigit = []
    · rw [if_pos hd] at h; exact absurd h (by simp)
    rw [if_neg hd] at h
    by_cases hdot : (l.dropWhile Char.isDigit).head? = some ('.')
    swap
    · rw [if_neg hdot] at h; exact absurd h (by simp)
    rw [if_pos hdot] at h
    obtain ⟨r2, hr2⟩ : ∃ r2, l.dropWhile Char.isDigit = ('.') :: r2 := by
      cases hl2 : l.dropWhile Char.isDigit with
      | nil => rw [hl2] at hdot; exact absurd hdot (by simp)
      | cons a t =>
        rw [hl2] at hdot
        simp only [List.head?_cons, Option.some.injEq] at hdot
        exact ⟨t, by rw [hdot]⟩
    rw [hr2] at h
    simp only [List.tail_cons] at h
    by_cases hw : r2.takeWhile isWs = []
    · rw [if_pos hw] at h; exact absurd h (by simp)
    rw [if_neg hw] at h
    have hldec : l = l.takeWhile Char.isDigit ++ ('.') :: r2 := by
      rw [← hr2, List.takeWhile_append_dropWhile]
    have hr2dec : r2 = r2.takeWhile isWs ++ r2.dropWhile isWs :=
      (List.takeWhile_append_dropWhile _ _).symm
    have hdig : ∀ c ∈ l.takeWhile Char.isDigit, c.isDigit = true :=
      fun c hc => List.mem_takeWhile_imp hc
    have hwsm : ∀ c ∈ r2.takeWhile isWs, isWs c = true :=
      fun c hc => List.mem_takeWhile_imp hc
    rw [drop_length_takeWhile] at h
    by_cases hrest : r2.dropWhile isWs ≠ []
    · refine ⟨l.takeWhile Char.isDigit, r2.takeWhile isWs, r2.dropWhile isWs, ?_, hd, hdig,
        hw, hwsm, hrest⟩
      rw [List.takeWhile_append_dropWhile]
      exact hldec
    · -- the backtracking branch: everything after the dot is whitespace
      rw [if_neg hrest] at h
      push_neg at hrest
      have hr2ws : r2 = r2.takeWhile isWs := by
        conv_lhs => rw [hr2dec]
        rw [hrest, List.append_nil]
      by_cases hlen : 2 ≤ (r2.takeWhile isWs).length
      swap
      · rw [if_neg hlen] at h; exact absurd h (by simp)
      have hrne : r2 ≠ [] := by
        rw [hr2ws]; intro hz; rw [hz] at hlen; simp at hlen
      refine ⟨l.takeWhile Char.isDigit, r2.dropLast, [r2.getLast hrne], ?_, hd, hdig, ?_, ?_, ?_⟩
      · rw [List.dropLast_append_getLast hrne]
        exact hldec
      · intro hz
        have h5 := congrArg List.length hz
        rw [List.length_dropLast] at h5
        have h6 := congrArg List.length hr2ws
        simp only [List.length_nil] at h5
        omega
      · intro c hc
        have hcm : c ∈ r2 := (List.dropLast_sublist r2).subset hc
        rw [hr2ws] at hcm
        exact List.mem_takeWhile_imp hcm
      · simp
  · rintro ⟨d, w, r, rfl, hd, hdig, hw, hws, hr⟩
    have h1 : (d ++ ('.') :: (w ++ r)).takeWhile Char.isDigit = d := by
      rw [List.takeWhile_append_of_pos (fun a ha => hdig a ha)]
      rw [List.takeWhile_cons_of_neg (by simp)]
      simp
    have h2 : (d ++ ('.') :: (w ++ r)).drop d.length = ('.') :: (w ++ r) :=
      List.drop_left _ _
    simp only [stepMatch, h1, h2]
    rw [if_neg hd, if_pos (by simp)]
    simp only [List.tail_cons]
    have h3 : (w ++ r).takeWhile isWs = w ++ r.takeWhile isWs :=
      List.takeWhile_append_of_pos (fun a ha => hws a ha)
    have h4 : (w ++ r).dropWhile isWs = r.dropWhile isWs :=
      List.dropWhile_append_of_pos (fun a ha => hws a ha)
    have hwne : (w ++ r).takeWhile isWs ≠ [] := by
      rw [h3]; exact append_ne_nil_left hw
    rw [if_neg hwne, drop_length_takeWhile, h4]
    by_cases hrest : r.dropWhile isWs ≠ []
    · rw [if_pos hrest]; simp
    · rw [if_neg hrest]
      push_neg at hrest
      have hrws : r.takeWhile isWs = r := by
        have := List.takeWhile_append_dropWhile (p := isWs) (l := r)
        rw [hrest, List.append_nil] at this
        exact this
      have hlen : 2 ≤ ((w ++ r).takeWhile isWs).length := by
        rw [h3, hrws, List.length_append]
        have hw1 : 0 < w.length := List.length_pos.mpr hw
        have hr1 : 0 < r.length := List.length_pos.mpr hr
        omega
      rw [if_pos hlen]
      simp

/-- Claim C7: `parseInstructions` produces a record for a newline-free,
non-blank, non-heading line exactly when the trimmed line starts with a
digit run, a dot, whitespace and a non-empty remainder (the leading
`"<integer>. "` pattern); and the specification example parses to step 1
with temperature 350 F and duration 10 minute. -/
theorem c7_parseInstructions :
    (∀ line : String, ('\n') ∉ line.data → trimList line.data ≠ [] →
      (trimList line.data).head? ≠ some ('#') →
      (parseInstructions line ≠ [] ↔
        ∃ d w r : List Char, trimList line.data = d ++ ('.') :: (w ++ r) ∧ d ≠ [] ∧
          (∀ c ∈ d, c.isDigit = true) ∧ w ≠ [] ∧ (∀ c ∈ w, isWs c = true) ∧ r ≠ [])) ∧
    parseInstructions ("1. Preheat oven to 350°F for 10 minutes.") =
      [{ stepNumber := 1, text := "Preheat oven to 350°F for 10 minutes.",
         temperature := some { value := 350, unit := ('F') },
         time := some { value := 10, unit := "minute" } }] := by
  constructor
  · intro line hnl hne hhd
    rw [parseInstructions, splitChar_of_not_mem hnl]
    rw [← stepMatch_isSome_iff]
    simp only [List.filterMap_cons, List.filterMap_nil]
    simp only [instructionOfLine]
    rw [if_neg hne, if_neg hhd]
    cases hsm : stepMatch (trimList line.data) with
    | none => simp
    | some pr => simp
  · decide

/-- Claim C7, witness: a concrete numbered line produces an instruction. -/
theorem c7_witness : parseInstructions ("3. Stir well") ≠ [] :=
  (c7_parseInstructions.1 ("3. Stir well") (by decide) (by decide) (by decide)).mpr
    ⟨("3").data, (" ").data, ("Stir well").data,
      by decide, by decide, by decide, by decide, by decide, by decide⟩

/-- Claim C8, witness: one concrete ingredient scaled from 24 to 12
servings. -/
theorem c8_witness :
    (scaleRecipe [{ original := "1 cup sugar", quantity := 1, unit := "cup",
                    unitType := UnitType.volume, ingredient := "sugar", notes := none }] 24 12)[0]?
      = some { toIngredient := { original := "1 cup sugar", quantity := 1, unit := "cup",
                                 unitType := UnitType.volume, ingredient := "sugar",
                                 notes := none },
               scaledQuantity := 1 / 2, scaledUnit := "cup", displayQuantity := "1/2" } :=
  ((c8_scaleRecipe [{ original := "1 cup sugar", quantity := 1, unit := "cup",
                      unitType := UnitType.volume, ingredient := "sugar", notes := none }]
      24 12 (by norm_num)).2.1 0).trans (by with_unfolding_all rfl)

theorem digitChar_isDigit {m : ℕ} (h : m < 10) : (digitChar m).isDigit = true := by
  interval_cases m <;> decide

theorem digitVal_digitChar {m : ℕ} (h : m < 10) : digitVal (digitChar m) = m := by
  interval_cases m <;> decide

theorem natDigitsRev_digits (n : ℕ) : ∀ c ∈ natDigitsRev n, c.isDigit = true := by
  induction n using Nat.strong_induction_on with
  | _ n ih =>
    match n with
    | 0 => simp [natDigitsRev]
    | m + 1 =>
      intro c hc
      rw [natDigitsRev] at hc
      rcases List.mem_cons.mp hc with rfl | hmem
      · exact digitChar_isDigit (Nat.mod_lt _ (by omega))
      · exact ih ((m + 1) / 10) (Nat.div_lt_self (by omega) (by omega)) c hmem

theorem natDigitsRev_foldr (n : ℕ) :
    (natDigitsRev n).foldr (fun c a => 10 * a + digitVal c) 0 = n := by
  induction n using Nat.strong_induction_on with
  | _ n ih =>
    match n with
    | 0 => simp [natDigitsRev]
    | m + 1 =>
      rw [natDigitsRev, List.foldr_cons, ih ((m + 1) / 10) (Nat.div_lt_self (by omega) (by omega)),
        digitVal_digitChar (Nat.mod_lt _ (by omega))]
      omega

theorem natVal_natToChars (n : ℕ) : natVal (natToChars n) = n := by
  by_cases h : n = 0
  · subst h; decide
  · rw [natToChars, if_neg h, natVal, List.foldl_reverse]
    exact natDigitsRev_foldr n

theorem natToChars_digits (n : ℕ) : ∀ c ∈ natToChars n, c.isDigit = true := by
  intro c hc
  rw [natToChars] at hc
  by_cases h : n = 0
  · rw [if_pos h] at hc
    simp only [List.mem_singleton] at hc
    subst hc; decide
  · rw [if_neg h, List.mem_reverse] at hc
    exact natDigitsRev_digits n c hc

theorem natToChars_ne_nil (n : ℕ) : natToChars n ≠ [] := by
  rw [natToChars]
  by_cases h : n = 0
  · rw [if_pos h]; simp
  · rw [if_neg h]
    match n, h with
    | m + 1, _ => rw [natDigitsRev]; simp

theorem digit_not_ws {c : Char} (h : c.isDigit = true) : isWs c = false := by
  by_cases h1 : c = (' ')
  · subst h1; exact absurd h (by decide)
  by_cases h2 : c = ('\t')
  · subst h2; exact absurd h (by decide)
  by_cases h3 : c = ('\r')
  · subst h3; exact absurd h (by decide)
  by_cases h4 : c = ('\n')
  · subst h4; exact absurd h (by decide)
  simp [isWs, Char.isWhitespace, h1, h2, h3, h4]

theorem digit_ne {c x : Char} (h : c.isDigit = true) (hx : x.isDigit = false) : c ≠ x := by
  intro hcx
  subst hcx
  simp [h] at hx

theorem splitWsAux_all_not_ws (l : List Char) :
    ∀ cur : List Char, (∀ c ∈ l, isWs c = false) → splitWsAux cur l = [cur ++ l] := by
  induction l with
  | nil => intro cur _; simp [splitWsAux]
  | cons c cs ih =>
    intro cur h
    have hc : isWs c = false := h c (List.mem_cons_self _ _)
    rw [splitWsAux, if_neg (by simp [hc]),
      ih (cur ++ [c]) (fun x hx => h x (List.mem_cons_of_mem _ hx))]
    simp

theorem jsParseFloatL_digits (l : List Char) (h : l ≠ []) (hd : ∀ c ∈ l, c.isDigit = true) :
    jsParseFloatL l = some ((natVal l : ℚ)) := by
  obtain ⟨c, t, rfl⟩ := List.exists_cons_of_ne_nil h
  have hc : c.isDigit = true := hd c (List.mem_cons_self _ _)
  have hdw : (c :: t).dropWhile isWs = c :: t :=
    List.dropWhile_cons_of_neg (by simp [digit_not_ws hc])
  have hcm : c ≠ ('-') := digit_ne hc (by decide)
  have hcp : c ≠ ('+') := digit_ne hc (by decide)
  have htw : (c :: t).takeWhile Char.isDigit = c :: t := List.takeWhile_eq_self_iff.mpr hd
  simp only [jsParseFloatL, hdw, List.head?_cons, Option.some.injEq, hcm, hcp, or_self,
    if_false, htw, List.drop_length, List.head?_nil, reduceCtorEq]
  simp [natVal]

theorem partStep_digits (l : List Char) (h : l ≠ []) (hd : ∀ c ∈ l, c.isDigit = true) :
    partStep l = some ((natVal l : ℚ)) := by
  have hns : ('/') ∉ l := fun hm => absurd (hd _ hm) (by decide)
  rw [partStep, if_neg hns]
  exact jsParseFloatL_digits l h hd

/-- Claim C9 (amended): `parseQuantity` is a left inverse of the
whole-number branch of `formatQuantity` on every strictly positive whole
number. -/
theorem c9_roundtrip_positive (n : ℕ) (hn : 0 < n) :
    parseQuantity (formatQuantity ((n : ℚ))) = some ((n : ℚ)) := by
  have hfq : formatQuantity ((n : ℚ)) = String.mk (natToChars n) := by
    rw [formatQuantity, if_pos (Rat.den_natCast n), jsNumToString, Rat.num_natCast, intToString,
      if_neg (by omega), Int.natAbs_ofNat]
  rw [hfq]
  have hdigs := natToChars_digits n
  have hne2 := natToChars_ne_nil n
  have hsplit : splitWs (String.mk (natToChars n)).data = [natToChars n] := by
    rw [splitWs, splitWsAux_all_not_ws _ _ (fun c hc => digit_not_ws (hdigs c hc))]
    simp
  have haux : parseQuantityAux [natToChars n] 0 = some (0 + ((natVal (natToChars n) : ℚ))) := by
    rw [parseQuantityAux, partStep_digits _ hne2 hdigs]
    rfl
  rw [parseQuantity, hsplit, haux]
  show (if 0 < 0 + ((natVal (natToChars n) : ℚ)) then some (0 + ((natVal (natToChars n) : ℚ)))
    else none) = some ((n : ℚ))
  rw [natVal_natToChars, zero_add, if_pos (by exact_mod_cast hn)]

/-- Claim C9, witness: the round trip at `3`. -/
theorem c9_witness : parseQuantity (formatQuantity (((3 : ℕ) : ℚ))) = some (((3 : ℕ) : ℚ)) :=
  c9_roundtrip_positive 3 (by norm_num)

/-- `Math.round` (floor of `x + 1/2`) is a nearest integer to `x`. -/
theorem jsRound_nearest (x : ℚ) (n : ℤ) : |x - (jsRound x : ℚ)| ≤ |x - (n : ℚ)| := by
  rw [jsRound]
  set r := ⌊x + 1 / 2⌋ with hr
  have h1 : (r : ℚ) ≤ x + 1 / 2 := Int.floor_le _
  have h2 : x + 1 / 2 < r + 1 := Int.lt_floor_add_one _
  have hxr : |x - (r : ℚ)| ≤ 1 / 2 := by
    rw [abs_le]
    constructor <;> linarith
  by_cases hn : n = r
  · subst hn; exact le_refl _
  · have hz : r - n ≠ 0 := sub_ne_zero.mpr (fun hh => hn hh.symm)
    have hd : (1 : ℚ) ≤ |(r : ℚ) - (n : ℚ)| := by
      have h3 : (1 : ℤ) ≤ |r - n| := Int.one_le_abs hz
      exact_mod_cast h3
    have key : |(r : ℚ) - (n : ℚ)| ≤ |x - (n : ℚ)| + |x - (r : ℚ)| := by
      have heq : (r : ℚ) - (n : ℚ) = (x - (n : ℚ)) + ((r : ℚ) - x) := by ring
      rw [heq]
      refine le_trans (abs_add _ _) ?_
      rw [abs_sub_comm (r : ℚ) x]
    linarith

theorem cfStep_def (rem : ℚ) (b : ℤ × ℤ × ℚ) (d : ℕ) :
    cfStep rem b d =
      if |(jsRound (rem * d) : ℚ) / (d : ℚ) - rem| < b.2.2
      then (jsRound (rem * d), (d : ℤ), |(jsRound (rem * d) : ℚ) / (d : ℚ) - rem|)
      else b := rfl

/-- The denominator loop's running error only decreases and ends below the
error of every denominator it visited. -/
theorem cfFold_error_le (rem : ℚ) (L : List ℕ) :
    ∀ b : ℤ × ℤ × ℚ,
      (L.foldl (cfStep rem) b).2.2 ≤ b.2.2 ∧
      ∀ d ∈ L, (L.foldl (cfStep rem) b).2.2 ≤ |(jsRound (rem * d) : ℚ) / (d : ℚ) - rem| := by
  induction L with
  | nil => intro b; exact ⟨le_refl _, by simp⟩
  | cons d L ih =>
    intro b
    rw [List.foldl_cons]
    have hstep_le : (cfStep rem b d).2.2 ≤ b.2.2 := by
      rw [cfStep_def]
      split
      · next h => exact le_of_lt h
      · exact le_refl _
    have hstep_d : (cfStep rem b d).2.2 ≤ |(jsRound (rem * d) : ℚ) / (d : ℚ) - rem| := by
      rw [cfStep_def]
      split
      · exact le_refl _
      · next h => exact le_of_not_lt h
    obtain ⟨ih1, ih2⟩ := ih (cfStep rem b d)
    refine ⟨le_trans ih1 hstep_le, fun e he => ?_⟩
    rcases List.mem_cons.mp he with rfl | hmem
    · exact le_trans ih1 hstep_d
    · exact ih2 e hmem

/-- With a non-negative remainder the loop's best numerator and denominator
stay non-negative. -/
theorem cfFold_nonneg (rem : ℚ) (hrem : 0 ≤ rem) (L : List ℕ) :
    ∀ b : ℤ × ℤ × ℚ, 0 ≤ b.1 → 0 ≤ b.2.1 →
      0 ≤ (L.foldl (cfStep rem) b).1 ∧ 0 ≤ (L.foldl (cfStep rem) b).2.1 := by
  induction L with
  | nil => intro b h1 h2; exact ⟨h1, h2⟩
  | cons d L ih =>
    intro b h1 h2
    rw [List.foldl_cons]
    have hj : (0 : ℤ) ≤ jsRound (rem * d) := by
      rw [jsRound]
      rw [Int.le_floor]
      push_cast
      have : (0 : ℚ) ≤ rem * d := mul_nonneg hrem (by positivity)
      linarith
    refine ih (cfStep rem b d) ?_ ?_ <;> rw [cfStep_def] <;> split
    · exact hj
    · exact h1
    · positivity
    · exact h2

/-- Claim C10: for every negative non-whole value whose fractional
remainder is strictly within 0.01 of some fraction with denominator at most
16, `formatQuantity` renders the bare fraction found by the denominator
search, dropping both the minus sign and the (negative) whole part, because
the whole part is only rendered when strictly positive; the output contains
no minus sign. -/
theorem c10_negative_bare_fraction (v : ℚ) (hv : v < 0) (hden : v.den ≠ 1)
    (hnear : ∃ (n : ℤ) (q : ℕ), 1 ≤ q ∧ q ≤ 16 ∧
      |(v - (⌊v⌋ : ℚ)) - (n : ℚ) / (q : ℚ)| < 1 / 100) :
    formatQuantity v = intToString (closestFraction v).numerator ++ ("/")
        ++ intToString (closestFraction v).denominator ∧
    ∀ c ∈ (formatQuantity v).data, c ≠ ('-') := by
  obtain ⟨n, q, hq1, hq16, hclose⟩ := hnear
  set rem := v - (⌊v⌋ : ℚ) with hremdef
  have hrem0 : 0 ≤ rem := by
    have := Int.floor_le v
    rw [hremdef]
    linarith
  have hq0 : (0 : ℚ) < (q : ℚ) := by
    have : 0 < q := by omega
    exact_mod_cast this
  have herrq : |(jsRound (rem * q) : ℚ) / (q : ℚ) - rem| < 1 / 100 := by
    have hnr : |rem * q - (jsRound (rem * q) : ℚ)| ≤ |rem * q - (n : ℚ)| :=
      jsRound_nearest (rem * q) n
    have heq1 : (jsRound (rem * q) : ℚ) / (q : ℚ) - rem
        = ((jsRound (rem * q) : ℚ) - rem * q) / q := by
      field_simp
      ring
    have heq2 : (rem - (n : ℚ) / q) = (rem * q - (n : ℚ)) / q := by
      field_simp
    rw [heq1, abs_div, abs_of_pos hq0]
    have hle : |(jsRound (rem * q) : ℚ) - rem * q| ≤ |rem * q - (n : ℚ)| := by
      rw [abs_sub_comm]
      exact hnr
    rw [heq2] at hclose
    rw [abs_div, abs_of_pos hq0] at hclose
    calc |(jsRound (rem * q) : ℚ) - rem * q| / q ≤ |rem * q - (n : ℚ)| / q :=
          (div_le_div_iff_of_pos_right hq0).mpr hle
      _ < 1 / 100 := hclose
  set B := (List.range' 1 16).foldl (cfStep rem) ((0 : ℤ), (1 : ℤ), (1 : ℚ)) with hB
  have hqmem : q ∈ List.range' 1 16 := by
    rw [List.mem_range']
    exact ⟨q - 1, by omega, by omega⟩
  have hBerr : B.2.2 < 1 / 100 :=
    lt_of_le_of_lt ((cfFold_error_le rem (List.range' 1 16) _).2 q hqmem) herrq
  have hBnn := cfFold_nonneg rem hrem0 (List.range' 1 16) ((0 : ℤ), (1 : ℤ), (1 : ℚ))
    (by norm_num) (by norm_num)
  have hfl : ⌊v⌋ < 0 := by
    have h1 : (⌊v⌋ : ℚ) ≤ v := Int.floor_le v
    have h2 : (⌊v⌋ : ℚ) < 0 := lt_of_le_of_lt h1 hv
    exact_mod_cast h2
  have hcf : closestFraction v = if B.1 = B.2.1 then
      ({ whole := ⌊v⌋ + 1, numerator := 1, denominator := 1, error := 0 } : FractionMatch)
    else { whole := ⌊v⌋, numerator := B.1, denominator := B.2.1, error := B.2.2 } := rfl
  have hFerr : (closestFraction v).error < 1 / 100 := by
    rw [hcf]
    split
    · norm_num
    · exact hBerr
  have hFwh : ¬ (0 < (closestFraction v).whole) := by
    rw [hcf]
    split <;> simp <;> omega
  have hFnum : 0 ≤ (closestFraction v).numerator := by
    rw [hcf]
    split
    · norm_num
    · exact hBnn.1
  have hFden : 0 ≤ (closestFraction v).denominator := by
    rw [hcf]
    split
    · norm_num
    · exact hBnn.2
  have hform : formatQuantity v = intToString (closestFraction v).numerator ++ ("/")
      ++ intToString (closestFraction v).denominator := by
    rw [formatQuantity]
    rw [if_neg hden, if_pos hFerr, if_neg hFwh]
  refine ⟨hform, fun c hc => ?_⟩
  rw [hform] at hc
  simp only [String.data_append] at hc
  have e1 : (intToString (closestFraction v).numerator).data
      = natToChars (closestFraction v).numerator.natAbs := by
    rw [intToString, if_neg (not_lt.mpr hFnum)]
  have e2 : (intToString (closestFraction v).denominator).data
      = natToChars (closestFraction v).denominator.natAbs := by
    rw [intToString, if_neg (not_lt.mpr hFden)]
  rw [e1, e2] at hc
  rcases List.mem_append.mp hc with hc1 | hc2
  · rcases List.mem_append.mp hc1 with hc3 | hc4
    · exact digit_ne (natToChars_digits _ c hc3) (by decide)
    · simp only [List.mem_singleton] at hc4
      subst hc4
      decide
  · exact digit_ne (natToChars_digits _ c hc2) (by decide)

/-- Claim C10, witness: the two specification examples. -/
theorem c10_witness :
    formatQuantity (-(1 / 2 : ℚ)) = "1/2" ∧ formatQuantity (-(5 / 2 : ℚ)) = "1/2" :=
  ⟨((c10_negative_bare_fraction (-(1 / 2)) (by norm_num) (by with_unfolding_all decide)
      ⟨1, 2, by norm_num, by norm_num, by with_unfolding_all decide⟩).1).trans
      (by with_unfolding_all decide),
   ((c10_negative_bare_fraction (-(5 / 2)) (by norm_num) (by with_unfolding_all decide)
      ⟨1, 2, by norm_num, by norm_num, by with_unfolding_all decide⟩).1).trans
      (by with_unfolding_all decide)⟩

end Recipe

